import Mathlib

/-!
# Verification of the ColBERT query-side tensorization pipeline

This development embeds `colbert/modeling/tokenization/query_tokenization.py`
(class `QueryTokenizer`) as executable Lean definitions and proves the
documented properties of `tokenize`, `encode`, `tensorize` and `max_len`.

Token-id matrices are modelled as `List (List Nat)` (row-major, one row per
batch entry), attention masks likewise.  The HuggingFace tokenizer the class
wraps is a black-box collaborator; it is modelled by a structure of its
observable capabilities: a raw subword map `String → List Nat` (what
`tok(text, add_special_tokens=False)` returns), the corresponding
string-level map, and the special tokens.  Its padding/truncation calls are
modelled faithfully: `[CLS] + tokens + [SEP]` framing, truncation of the
content so the framed row never exceeds `max_length` (but never below the
two special tokens), padding with the pad id up to the requested width.
Fallible paths (`assert` statements in the source) are modelled with
`Except`.
-/

set_option autoImplicit false

namespace ColBERT

/-- The raw HuggingFace tokenizer collaborator (`self.tok` in the source),
reduced to the capabilities the `QueryTokenizer` uses: subword tokenization
of a string (as strings and as vocabulary ids) and the special tokens. -/
structure RawTokenizer where
  tokenize_str : String → List String
  rawIds : String → List Nat
  cls_token : String
  sep_token : String
  mask_token : String
  cls_token_id : Nat
  sep_token_id : Nat
  mask_token_id : Nat
  pad_token_id : Nat

/-- The `QueryTokenizer` object: the wrapped raw tokenizer plus the
configuration fields read by its methods (`config.query_maxlen`,
`config.query_token` resolved to an id, `config.query_pad_tok == "mask"`,
`config.cap_padding`, `config.attend_to_mask_tokens`). -/
structure QueryTokenizer where
  tok : RawTokenizer
  query_maxlen : Nat
  Q_marker_token : String
  Q_marker_token_id : Nat
  query_pad_tok_mask : Bool
  cap_padding : Nat
  attend_to_mask_tokens : Bool

/-- `self.background_maxlen = 512 - self.query_maxlen + 1`. -/
def QueryTokenizer.background_maxlen (Q : QueryTokenizer) : Nat :=
  512 - Q.query_maxlen + 1

/-- `QueryTokenizer.tokenize`: raw subword strings per input; when
`add_special_tokens` is set, each row becomes
`[cls, Q_marker] ++ tokens ++ [sep] ++ [mask] * (query_maxlen - (len+3))`
(a negative repeat count in Python yields the empty list, exactly like
truncated subtraction on `Nat`). -/
def QueryTokenizer.tokenize (Q : QueryTokenizer) (batch_text : List String)
    (add_special_tokens : Bool) : List (List String) :=
  let tokens := batch_text.map Q.tok.tokenize_str
  if !add_special_tokens then tokens
  else
    tokens.map fun lst =>
      [Q.tok.cls_token, Q.Q_marker_token] ++ lst ++ [Q.tok.sep_token]
        ++ List.replicate (Q.query_maxlen - (lst.length + 3)) Q.tok.mask_token

/-- `QueryTokenizer.encode`: same framing as `tokenize` but over ids. -/
def QueryTokenizer.encode (Q : QueryTokenizer) (batch_text : List String)
    (add_special_tokens : Bool) : List (List Nat) :=
  let ids := batch_text.map Q.tok.rawIds
  if !add_special_tokens then ids
  else
    ids.map fun lst =>
      [Q.tok.cls_token_id, Q.Q_marker_token_id] ++ lst ++ [Q.tok.sep_token_id]
        ++ List.replicate (Q.query_maxlen - (lst.length + 3)) Q.tok.mask_token_id

/-- One row of a HuggingFace call with `add_special_tokens=True` (the
default) and `truncation=True`: `[CLS] + raw + [SEP]`, with the raw content
truncated so the row length is `min (raw.length + 2) max_length` — except
that truncation never removes the two special tokens, so the row length is
in fact `min (raw.length + 2) (max max_length 2)`. -/
def hfTruncRow (t : RawTokenizer) (max_length : Nat) (s : String) : List Nat :=
  let raw := t.rawIds s
  if raw.length + 2 ≤ max_length then t.cls_token_id :: (raw ++ [t.sep_token_id])
  else t.cls_token_id :: (raw.take (max_length - 2) ++ [t.sep_token_id])

/-- Right-pad a row with the pad id up to `width`. -/
def hfPadRow (t : RawTokenizer) (width : Nat) (row : List Nat) : List Nat :=
  row ++ List.replicate (width - row.length) t.pad_token_id

/-- Attention-mask row for a content row padded up to `width`. -/
def hfMaskRow (width : Nat) (row : List Nat) : List Nat :=
  List.replicate row.length 1 ++ List.replicate (width - row.length) 0

/-- `self.tok(batch, padding='max_length', truncation=True, max_length=L)`:
every row framed, truncated and padded to the common width. -/
def hfEncodeMax (t : RawTokenizer) (max_length : Nat) (batch : List String) :
    List (List Nat) × List (List Nat) :=
  let rows := batch.map (hfTruncRow t max_length)
  (rows.map (hfPadRow t max_length), rows.map (hfMaskRow max_length))

/-- Width chosen by `padding='longest'`: the longest framed row. -/
def longestWidth (t : RawTokenizer) (max_length : Nat) (batch : List String) : Nat :=
  ((batch.map (hfTruncRow t max_length)).map List.length).foldl max 0

/-- `self.tok(batch, padding='longest', truncation=True, max_length=L)`. -/
def hfEncodeLongest (t : RawTokenizer) (max_length : Nat) (batch : List String) :
    List (List Nat) × List (List Nat) :=
  let rows := batch.map (hfTruncRow t max_length)
  let width := longestWidth t max_length batch
  (rows.map (hfPadRow t width), rows.map (hfMaskRow width))

/-- `ids[:, 1] = self.Q_marker_token_id`. -/
def setMarker (Q : QueryTokenizer) (ids : List (List Nat)) : List (List Nat) :=
  ids.map fun row => row.set 1 Q.Q_marker_token_id

/-- `unpadded_sizes = (ids != self.pad_token_id).sum(dim=1)`. -/
def unpaddedSizes (Q : QueryTokenizer) (ids : List (List Nat)) : List Nat :=
  ids.map fun row => row.countP fun x => x != Q.tok.pad_token_id

/-- `ids[ids == self.pad_token_id] = self.mask_token_id`. -/
def padToMask (Q : QueryTokenizer) (ids : List (List Nat)) : List (List Nat) :=
  ids.map (List.map fun x =>
    if x = Q.tok.pad_token_id then Q.tok.mask_token_id else x)

/-- Per-row phase of the `cap_padding` loop on `ids`:
`ids[i, max_allowed_length:] = self.pad_token_id`. -/
def capRowIds (Q : QueryTokenizer) (allowed : Nat) (row : List Nat) : List Nat :=
  row.take allowed ++ List.replicate (row.length - allowed) Q.tok.pad_token_id

/-- Per-row phase of the `cap_padding` loop on `mask`:
`mask[i, max_allowed_length:] = 0`. -/
def capRowMask (allowed : Nat) (row : List Nat) : List Nat :=
  row.take allowed ++ List.replicate (row.length - allowed) 0

/-- The whole `cap_padding > 0` block: per-row zeroing beyond
`unpadded_sizes[i] + cap_padding`, then a batch-wide trim of both tensors
to `min(max_i (unpadded_sizes[i] + cap_padding), ids.size(1))`. -/
def capPaddingStage (Q : QueryTokenizer) (sizes : List Nat)
    (ids mask : List (List Nat)) : List (List Nat) × List (List Nat) :=
  let ids1 := List.zipWith (fun sz row => capRowIds Q (sz + Q.cap_padding) row) sizes ids
  let mask1 := List.zipWith (fun sz row => capRowMask (sz + Q.cap_padding) row) sizes mask
  let width := (ids.head?.getD []).length
  let max_length := min ((sizes.map (· + Q.cap_padding)).foldl max 0) width
  (ids1.map (List.take max_length), mask1.map (List.take max_length))

/-- `QueryTokenizer.max_len`: clamp a length into `[query_maxlen, 500]`. -/
def QueryTokenizer.max_len (Q : QueryTokenizer) (length : Nat) : Nat :=
  min 500 (max Q.query_maxlen length)

/-- The `max_length` used by the main tokenizer call: the config default, or
under `full_length_search` the clamped longest untruncated raw length of the
(already prefixed) batch. -/
def QueryTokenizer.targetLength (Q : QueryTokenizer) (batch_text : List String)
    (full_length_search : Bool) : Nat :=
  if full_length_search then
    Q.max_len (((batch_text.map Q.tok.rawIds).map List.length).foldl max 0)
  else Q.query_maxlen

/-- The `unpadded_sizes` vector as recorded by `tensorize` (after the marker
overwrite, before the pad-policy replacement). `batch_text` is the
already-prefixed batch. -/
def QueryTokenizer.querySizes (Q : QueryTokenizer) (batch_text : List String)
    (full_length_search : Bool) : List Nat :=
  unpaddedSizes Q
    (setMarker Q (hfEncodeMax Q.tok (Q.targetLength batch_text full_length_search) batch_text).1)

/-- `ids` after the marker overwrite and the pad-policy replacement, before
the adaptive cap. `batch_text` is the already-prefixed batch. -/
def QueryTokenizer.queryIdsPreCap (Q : QueryTokenizer) (batch_text : List String)
    (full_length_search : Bool) : List (List Nat) :=
  let ids1 := setMarker Q (hfEncodeMax Q.tok (Q.targetLength batch_text full_length_search) batch_text).1
  if Q.query_pad_tok_mask then padToMask Q ids1 else ids1

/-- The query-side pipeline after the main tokenizer call: marker overwrite,
unpadded-size logging, pad-policy replacement, adaptive cap. `batch_text` is
the already-prefixed batch. -/
def QueryTokenizer.querySide (Q : QueryTokenizer) (batch_text : List String)
    (full_length_search : Bool) : List (List Nat) × List (List Nat) :=
  let mask0 := (hfEncodeMax Q.tok (Q.targetLength batch_text full_length_search) batch_text).2
  if 0 < Q.cap_padding then
    capPaddingStage Q (Q.querySizes batch_text full_length_search)
      (Q.queryIdsPreCap batch_text full_length_search) mask0
  else (Q.queryIdsPreCap batch_text full_length_search, mask0)

/-- The common row width produced by the query-side pipeline on a non-empty
batch: the padded width `max(target, 2)`, trimmed by the adaptive cap when
`cap_padding > 0`. -/
def QueryTokenizer.querySideWidth (Q : QueryTokenizer) (batch_text : List String)
    (full_length_search : Bool) : Nat :=
  let W := max (Q.targetLength batch_text full_length_search) 2
  if 0 < Q.cap_padding then
    min (((Q.querySizes batch_text full_length_search).map (· + Q.cap_padding)).foldl max 0) W
  else W

/-- Context post-processing: tokenize with `padding='longest'` capped at
`background_maxlen`, drop column 0 of ids and mask (`[:, 1:]`, skipping the
leading separator), concatenate to the right of the query tensors. -/
def contextStage (Q : QueryTokenizer) (ctx : List String)
    (ids mask : List (List Nat)) : List (List Nat) × List (List Nat) :=
  let enc := hfEncodeLongest Q.tok Q.background_maxlen ctx
  let ids_2 := enc.1.map (List.drop 1)
  let mask_2 := enc.2.map (List.drop 1)
  (List.zipWith (· ++ ·) ids ids_2, List.zipWith (· ++ ·) mask mask_2)

/-- `mask[ids == self.mask_token_id] = 1`. -/
def attendToMask (Q : QueryTokenizer) (ids mask : List (List Nat)) :
    List (List Nat) :=
  List.zipWith
    (List.zipWith fun x m => if x = Q.tok.mask_token_id then 1 else m) ids mask

/-- `mask.sum().item()`. -/
def maskSum (mask : List (List Nat)) : Nat := (mask.map List.sum).sum

/-- `mask.size(0) * mask.size(1)`. -/
def numel (mask : List (List Nat)) : Nat :=
  mask.length * (mask.head?.getD []).length

/-- The failure modes of `tensorize` (Python `assert` statements). -/
inductive TensorizeError where
  | invalidArgument
  | invariantViolation
deriving DecidableEq, Repr

/-- Final stage of `tensorize`: optional forced attention on mask tokens,
followed by the asserted all-ones postcondition. -/
def QueryTokenizer.finishStage (Q : QueryTokenizer) (ids mask : List (List Nat)) :
    Except TensorizeError (List (List Nat) × List (List Nat)) :=
  let mask5 := if Q.attend_to_mask_tokens then attendToMask Q ids mask else mask
  if Q.attend_to_mask_tokens ∧ maskSum mask5 ≠ numel mask5 then
    .error .invariantViolation
  else .ok (ids, mask5)

/-- `batch_text = ['. ' + x for x in batch_text]`: the placeholder prefix
reserving token position 1 for the `[Q]` marker. -/
def prefixBatch (batch_text : List String) : List String :=
  batch_text.map fun x => ". " ++ x

/-- `QueryTokenizer.tensorize` (with `bsize=None`): prefix every string with
`". "`, check the `full_length_search` batch-size precondition, run the
query-side pipeline, optionally splice the context, optionally force
attention on mask tokens and check the all-ones invariant. -/
def QueryTokenizer.tensorize (Q : QueryTokenizer) (batch_text : List String)
    (context : Option (List String)) (full_length_search : Bool) :
    Except TensorizeError (List (List Nat) × List (List Nat)) :=
  let batch := prefixBatch batch_text
  if full_length_search ∧ batch.length ≠ 1 then .error .invalidArgument
  else
    let qs := Q.querySide batch full_length_search
    match context with
    | none => Q.finishStage qs.1 qs.2
    | some ctx =>
        if ctx.length ≠ batch.length then .error .invalidArgument
        else
          let cs := contextStage Q ctx qs.1 qs.2
          Q.finishStage cs.1 cs.2

/-! ## A concrete instantiation

A small executable tokenizer (one token per non-space character, its
character code as vocabulary id) used to evaluate the pipeline on concrete
inputs. -/

def demoTok : RawTokenizer where
  tokenize_str := fun s => (s.toList.filter (· != ' ')).map fun c => String.singleton c
  rawIds := fun s => (s.toList.filter (· != ' ')).map Char.toNat
  cls_token := "[CLS]"
  sep_token := "[SEP]"
  mask_token := "[MASK]"
  cls_token_id := 101
  sep_token_id := 102
  mask_token_id := 103
  pad_token_id := 0

def demoQT : QueryTokenizer where
  tok := demoTok
  query_maxlen := 6
  Q_marker_token := "[Q]"
  Q_marker_token_id := 1
  query_pad_tok_mask := false
  cap_padding := 0
  attend_to_mask_tokens := false

def demoQTcap : QueryTokenizer := { demoQT with cap_padding := 1 }

def demoQTpadmask : QueryTokenizer := { demoQT with query_pad_tok_mask := true }

def demoQTattend : QueryTokenizer :=
  { demoQT with query_pad_tok_mask := true, attend_to_mask_tokens := true }

/-! ## Basic lemmas -/

theorem le_foldl_max_init (l : List Nat) (b : Nat) : b ≤ l.foldl max b := by
  induction l generalizing b with
  | nil => simp
  | cons a l ih => exact le_trans (le_max_left b a) (ih (max b a))

theorem le_foldl_max_of_mem {a : Nat} {l : List Nat} (b : Nat) (h : a ∈ l) :
    a ≤ l.foldl max b := by
  induction l generalizing b with
  | nil => cases h
  | cons c l ih =>
    rcases List.mem_cons.mp h with rfl | h'
    · exact le_trans (le_max_right b a) (le_foldl_max_init l (max b a))
    · exact ih (max b c) h'

theorem mem_zipWith_decomp {α β γ : Type} {f : α → β → γ} {as : List α}
    {bs : List β} {c : γ} (h : c ∈ List.zipWith f as bs) :
    ∃ a ∈ as, ∃ b ∈ bs, c = f a b := by
  induction as generalizing bs with
  | nil => simp at h
  | cons a as ih =>
    cases bs with
    | nil => simp at h
    | cons b bs =>
      rcases List.mem_cons.mp h with rfl | h'
      · exact ⟨a, List.mem_cons_self a as, b, List.mem_cons_self b bs, rfl⟩
      · obtain ⟨a', ha, b', hb, rfl⟩ := ih h'
        exact ⟨a', List.mem_cons_of_mem a ha, b', List.mem_cons_of_mem b hb, rfl⟩

theorem hfTruncRow_length (t : RawTokenizer) (L : Nat) (s : String) :
    (hfTruncRow t L s).length = min ((t.rawIds s).length + 2) (max L 2) := by
  simp only [hfTruncRow]
  split <;> simp [List.length_take] <;> omega

theorem hfPadRow_length (t : RawTokenizer) (W : Nat) (row : List Nat) :
    (hfPadRow t W row).length = max row.length W := by
  simp [hfPadRow]; omega

theorem hfMaskRow_length (W : Nat) (row : List Nat) :
    (hfMaskRow W row).length = max row.length W := by
  simp [hfMaskRow]; omega

theorem hfEncodeMax_fst_length (t : RawTokenizer) (L : Nat) (batch : List String) :
    (hfEncodeMax t L batch).1.length = batch.length := by
  simp [hfEncodeMax]

theorem hfEncodeMax_snd_length (t : RawTokenizer) (L : Nat) (batch : List String) :
    (hfEncodeMax t L batch).2.length = batch.length := by
  simp [hfEncodeMax]

theorem width_hfEncodeMax_fst (t : RawTokenizer) (L : Nat) (batch : List String) :
    ∀ row ∈ (hfEncodeMax t L batch).1, row.length = max L 2 := by
  intro row hr
  simp only [hfEncodeMax, List.map_map, List.mem_map, Function.comp] at hr
  obtain ⟨s, _, rfl⟩ := hr
  rw [hfPadRow_length, hfTruncRow_length]
  omega

theorem width_hfEncodeMax_snd (t : RawTokenizer) (L : Nat) (batch : List String) :
    ∀ row ∈ (hfEncodeMax t L batch).2, row.length = max L 2 := by
  intro row hr
  simp only [hfEncodeMax, List.map_map, List.mem_map, Function.comp] at hr
  obtain ⟨s, _, rfl⟩ := hr
  rw [hfMaskRow_length, hfTruncRow_length]
  omega

theorem binary_hfEncodeMax_snd (t : RawTokenizer) (L : Nat) (batch : List String) :
    ∀ row ∈ (hfEncodeMax t L batch).2, ∀ x ∈ row, x ≤ 1 := by
  intro row hr x hx
  simp only [hfEncodeMax, List.map_map, List.mem_map, Function.comp] at hr
  obtain ⟨s, _, rfl⟩ := hr
  simp only [hfMaskRow, List.mem_append, List.mem_replicate] at hx
  rcases hx with h | h <;> omega

theorem setMarker_length (Q : QueryTokenizer) (ids : List (List Nat)) :
    (setMarker Q ids).length = ids.length := by
  simp [setMarker]

theorem width_setMarker (Q : QueryTokenizer) (ids : List (List Nat)) (W : Nat)
    (h : ∀ row ∈ ids, row.length = W) :
    ∀ row ∈ setMarker Q ids, row.length = W := by
  intro row hr
  simp only [setMarker, List.mem_map] at hr
  obtain ⟨r, hrm, rfl⟩ := hr
  simpa using h r hrm

theorem padToMask_length (Q : QueryTokenizer) (ids : List (List Nat)) :
    (padToMask Q ids).length = ids.length := by
  simp [padToMask]

theorem width_padToMask (Q : QueryTokenizer) (ids : List (List Nat)) (W : Nat)
    (h : ∀ row ∈ ids, row.length = W) :
    ∀ row ∈ padToMask Q ids, row.length = W := by
  intro row hr
  simp only [padToMask, List.mem_map] at hr
  obtain ⟨r, hrm, rfl⟩ := hr
  simpa using h r hrm

theorem unpaddedSizes_length (Q : QueryTokenizer) (ids : List (List Nat)) :
    (unpaddedSizes Q ids).length = ids.length := by
  simp [unpaddedSizes]

theorem capRowIds_length (Q : QueryTokenizer) (a : Nat) (row : List Nat) :
    (capRowIds Q a row).length = row.length := by
  simp [capRowIds, List.length_take]; omega

theorem capRowMask_length (a : Nat) (row : List Nat) :
    (capRowMask a row).length = row.length := by
  simp [capRowMask, List.length_take]; omega

theorem width_capPaddingStage_fst (Q : QueryTokenizer) (sizes : List Nat)
    (ids mask : List (List Nat)) (W : Nat)
    (hids : ∀ row ∈ ids, row.length = W) (hne : ids ≠ []) :
    ∀ row ∈ (capPaddingStage Q sizes ids mask).1,
      row.length = min ((sizes.map (· + Q.cap_padding)).foldl max 0) W := by
  have hhead : (ids.head?.getD []).length = W := by
    cases ids with
    | nil => exact absurd rfl hne
    | cons r rs => exact hids r (List.mem_cons_self r rs)
  intro row hr
  simp only [capPaddingStage, hhead, List.mem_map] at hr
  obtain ⟨r, hrm, rfl⟩ := hr
  obtain ⟨sz, _, r', hr', rfl⟩ := mem_zipWith_decomp hrm
  have := hids r' hr'
  simp only [List.length_take, capRowIds_length, this]
  omega

theorem width_capPaddingStage_snd (Q : QueryTokenizer) (sizes : List Nat)
    (ids mask : List (List Nat)) (W : Nat)
    (hids : ∀ row ∈ ids, row.length = W) (hmask : ∀ row ∈ mask, row.length = W)
    (hne : ids ≠ []) :
    ∀ row ∈ (capPaddingStage Q sizes ids mask).2,
      row.length = min ((sizes.map (· + Q.cap_padding)).foldl max 0) W := by
  have hhead : (ids.head?.getD []).length = W := by
    cases ids with
    | nil => exact absurd rfl hne
    | cons r rs => exact hids r (List.mem_cons_self r rs)
  intro row hr
  simp only [capPaddingStage, hhead, List.mem_map] at hr
  obtain ⟨r, hrm, rfl⟩ := hr
  obtain ⟨sz, _, r', hr', rfl⟩ := mem_zipWith_decomp hrm
  have := hmask r' hr'
  simp only [List.length_take, capRowMask_length, this]
  omega

theorem capPaddingStage_fst_length (Q : QueryTokenizer) (sizes : List Nat)
    (ids mask : List (List Nat)) :
    (capPaddingStage Q sizes ids mask).1.length = min sizes.length ids.length := by
  simp [capPaddingStage, List.length_zipWith]

theorem capPaddingStage_snd_length (Q : QueryTokenizer) (sizes : List Nat)
    (ids mask : List (List Nat)) :
    (capPaddingStage Q sizes ids mask).2.length = min sizes.length mask.length := by
  simp [capPaddingStage, List.length_zipWith]

theorem querySizes_length (Q : QueryTokenizer) (batch : List String) (fls : Bool) :
    (Q.querySizes batch fls).length = batch.length := by
  simp [QueryTokenizer.querySizes, unpaddedSizes_length, setMarker_length,
    hfEncodeMax_fst_length]

theorem queryIdsPreCap_length (Q : QueryTokenizer) (batch : List String) (fls : Bool) :
    (Q.queryIdsPreCap batch fls).length = batch.length := by
  simp only [QueryTokenizer.queryIdsPreCap]
  split <;> simp [padToMask_length, setMarker_length, hfEncodeMax_fst_length]

theorem width_queryIdsPreCap (Q : QueryTokenizer) (batch : List String) (fls : Bool) :
    ∀ row ∈ Q.queryIdsPreCap batch fls,
      row.length = max (Q.targetLength batch fls) 2 := by
  have h1 := width_setMarker Q _ _ (width_hfEncodeMax_fst Q.tok (Q.targetLength batch fls) batch)
  simp only [QueryTokenizer.queryIdsPreCap]
  split
  · exact width_padToMask Q _ _ h1
  · exact h1

theorem width_querySide_fst (Q : QueryTokenizer) (batch : List String) (fls : Bool)
    (hb : batch ≠ []) :
    ∀ row ∈ (Q.querySide batch fls).1, row.length = Q.querySideWidth batch fls := by
  have hne : Q.queryIdsPreCap batch fls ≠ [] := by
    have := queryIdsPreCap_length Q batch fls
    intro hc
    rw [hc] at this
    exact hb (List.length_eq_zero.mp this.symm)
  simp only [QueryTokenizer.querySide, QueryTokenizer.querySideWidth]
  split
  · exact width_capPaddingStage_fst Q _ _ _ _ (width_queryIdsPreCap Q batch fls) hne
  · exact width_queryIdsPreCap Q batch fls

theorem width_querySide_snd (Q : QueryTokenizer) (batch : List String) (fls : Bool)
    (hb : batch ≠ []) :
    ∀ row ∈ (Q.querySide batch fls).2, row.length = Q.querySideWidth batch fls := by
  have hne : Q.queryIdsPreCap batch fls ≠ [] := by
    have := queryIdsPreCap_length Q batch fls
    intro hc
    rw [hc] at this
    exact hb (List.length_eq_zero.mp this.symm)
  simp only [QueryTokenizer.querySide, QueryTokenizer.querySideWidth]
  split
  · exact width_capPaddingStage_snd Q _ _ _ _ (width_queryIdsPreCap Q batch fls)
      (width_hfEncodeMax_snd Q.tok (Q.targetLength batch fls) batch) hne
  · exact width_hfEncodeMax_snd Q.tok (Q.targetLength batch fls) batch

theorem querySide_fst_length (Q : QueryTokenizer) (batch : List String) (fls : Bool) :
    (Q.querySide batch fls).1.length = batch.length := by
  simp only [QueryTokenizer.querySide]
  split
  · simp [capPaddingStage_fst_length, querySizes_length, queryIdsPreCap_length]
  · exact queryIdsPreCap_length Q batch fls

theorem querySide_snd_length (Q : QueryTokenizer) (batch : List String) (fls : Bool) :
    (Q.querySide batch fls).2.length = batch.length := by
  simp only [QueryTokenizer.querySide]
  split
  · simp [capPaddingStage_snd_length, querySizes_length, hfEncodeMax_snd_length]
  · exact hfEncodeMax_snd_length Q.tok (Q.targetLength batch fls) batch

theorem binary_querySide_snd (Q : QueryTokenizer) (batch : List String) (fls : Bool) :
    ∀ row ∈ (Q.querySide batch fls).2, ∀ x ∈ row, x ≤ 1 := by
  have h0 := binary_hfEncodeMax_snd Q.tok (Q.targetLength batch fls) batch
  simp only [QueryTokenizer.querySide]
  split
  · intro row hr x hx
    simp only [capPaddingStage, List.mem_map] at hr
    obtain ⟨r, hrm, rfl⟩ := hr
    obtain ⟨sz, _, r', hr', rfl⟩ := mem_zipWith_decomp hrm
    have hx' := List.mem_of_mem_take hx
    simp only [capRowMask, List.mem_append, List.mem_replicate] at hx'
    rcases hx' with h | h
    · exact h0 r' hr' x (List.mem_of_mem_take h)
    · omega
  · exact h0

theorem width_hfEncodeLongest_fst (t : RawTokenizer) (L : Nat) (batch : List String) :
    ∀ row ∈ (hfEncodeLongest t L batch).1, row.length = longestWidth t L batch := by
  intro row hr
  simp only [hfEncodeLongest, List.map_map, List.mem_map, Function.comp] at hr
  obtain ⟨s, hs, rfl⟩ := hr
  rw [hfPadRow_length]
  have : (hfTruncRow t L s).length ≤ longestWidth t L batch := by
    apply le_foldl_max_of_mem
    exact List.mem_map.mpr ⟨hfTruncRow t L s, List.mem_map.mpr ⟨s, hs, rfl⟩, rfl⟩
  omega

theorem width_hfEncodeLongest_snd (t : RawTokenizer) (L : Nat) (batch : List String) :
    ∀ row ∈ (hfEncodeLongest t L batch).2, row.length = longestWidth t L batch := by
  intro row hr
  simp only [hfEncodeLongest, List.map_map, List.mem_map, Function.comp] at hr
  obtain ⟨s, hs, rfl⟩ := hr
  rw [hfMaskRow_length]
  have : (hfTruncRow t L s).length ≤ longestWidth t L batch := by
    apply le_foldl_max_of_mem
    exact List.mem_map.mpr ⟨hfTruncRow t L s, List.mem_map.mpr ⟨s, hs, rfl⟩, rfl⟩
  omega

theorem two_le_longestWidth (t : RawTokenizer) (L : Nat) {batch : List String}
    (hb : batch ≠ []) : 2 ≤ longestWidth t L batch := by
  cases batch with
  | nil => exact absurd rfl hb
  | cons s rest =>
    have hmem : (hfTruncRow t L s).length ∈
        ((s :: rest).map (hfTruncRow t L)).map List.length := by
      simp
    have h2 : 2 ≤ (hfTruncRow t L s).length := by
      rw [hfTruncRow_length]; omega
    exact le_trans h2 (le_foldl_max_of_mem 0 hmem)

theorem binary_hfEncodeLongest_snd (t : RawTokenizer) (L : Nat) (batch : List String) :
    ∀ row ∈ (hfEncodeLongest t L batch).2, ∀ x ∈ row, x ≤ 1 := by
  intro row hr x hx
  simp only [hfEncodeLongest, List.map_map, List.mem_map, Function.comp] at hr
  obtain ⟨s, _, rfl⟩ := hr
  simp only [hfMaskRow, List.mem_append, List.mem_replicate] at hx
  rcases hx with h | h <;> omega

theorem width_contextStage_fst (Q : QueryTokenizer) (ctx : List String)
    (ids mask : List (List Nat)) (W : Nat) (hids : ∀ row ∈ ids, row.length = W) :
    ∀ row ∈ (contextStage Q ctx ids mask).1,
      row.length = W + (longestWidth Q.tok Q.background_maxlen ctx - 1) := by
  intro row hr
  simp only [contextStage] at hr
  obtain ⟨r, hrm, r', hr', rfl⟩ := mem_zipWith_decomp hr
  simp only [List.mem_map] at hr'
  obtain ⟨r₂, hr₂, rfl⟩ := hr'
  have := width_hfEncodeLongest_fst Q.tok Q.background_maxlen ctx r₂ hr₂
  simp [hids r hrm, List.length_drop, this]

theorem width_contextStage_snd (Q : QueryTokenizer) (ctx : List String)
    (ids mask : List (List Nat)) (W : Nat) (hmask : ∀ row ∈ mask, row.length = W) :
    ∀ row ∈ (contextStage Q ctx ids mask).2,
      row.length = W + (longestWidth Q.tok Q.background_maxlen ctx - 1) := by
  intro row hr
  simp only [contextStage] at hr
  obtain ⟨r, hrm, r', hr', rfl⟩ := mem_zipWith_decomp hr
  simp only [List.mem_map] at hr'
  obtain ⟨r₂, hr₂, rfl⟩ := hr'
  have := width_hfEncodeLongest_snd Q.tok Q.background_maxlen ctx r₂ hr₂
  simp [hmask r hrm, List.length_drop, this]

theorem contextStage_fst_length (Q : QueryTokenizer) (ctx : List String)
    (ids mask : List (List Nat)) :
    (contextStage Q ctx ids mask).1.length = min ids.length ctx.length := by
  simp [contextStage, List.length_zipWith, hfEncodeLongest]

theorem contextStage_snd_length (Q : QueryTokenizer) (ctx : List String)
    (ids mask : List (List Nat)) :
    (contextStage Q ctx ids mask).2.length = min mask.length ctx.length := by
  simp [contextStage, List.length_zipWith, hfEncodeLongest]

theorem binary_contextStage_snd (Q : QueryTokenizer) (ctx : List String)
    (ids mask : List (List Nat)) (hmask : ∀ row ∈ mask, ∀ x ∈ row, x ≤ 1) :
    ∀ row ∈ (contextStage Q ctx ids mask).2, ∀ x ∈ row, x ≤ 1 := by
  intro row hr x hx
  simp only [contextStage] at hr
  obtain ⟨r, hrm, r', hr', rfl⟩ := mem_zipWith_decomp hr
  simp only [List.mem_map] at hr'
  obtain ⟨r₂, hr₂, rfl⟩ := hr'
  rcases List.mem_append.mp hx with h | h
  · exact hmask r hrm x h
  · exact binary_hfEncodeLongest_snd Q.tok Q.background_maxlen ctx r₂ hr₂ x
      (List.mem_of_mem_drop h)

theorem binary_attendToMask (Q : QueryTokenizer) (ids mask : List (List Nat))
    (hmask : ∀ row ∈ mask, ∀ x ∈ row, x ≤ 1) :
    ∀ row ∈ attendToMask Q ids mask, ∀ x ∈ row, x ≤ 1 := by
  intro row hr x hx
  simp only [attendToMask] at hr
  obtain ⟨r, _, r', hr', rfl⟩ := mem_zipWith_decomp hr
  obtain ⟨a, _, b, hb, rfl⟩ := mem_zipWith_decomp hx
  split
  · omega
  · exact hmask r' hr' b hb

theorem width_attendToMask (Q : QueryTokenizer) (ids mask : List (List Nat)) (W : Nat)
    (hids : ∀ row ∈ ids, row.length = W) (hmask : ∀ row ∈ mask, row.length = W) :
    ∀ row ∈ attendToMask Q ids mask, row.length = W := by
  intro row hr
  simp only [attendToMask] at hr
  obtain ⟨r, hrm, r', hr', rfl⟩ := mem_zipWith_decomp hr
  simp [List.length_zipWith, hids r hrm, hmask r' hr']

theorem attendToMask_length (Q : QueryTokenizer) (ids mask : List (List Nat)) :
    (attendToMask Q ids mask).length = min ids.length mask.length := by
  simp [attendToMask, List.length_zipWith]

theorem finishStage_ok {Q : QueryTokenizer} {ids mask ids' mask' : List (List Nat)}
    (h : Q.finishStage ids mask = .ok (ids', mask')) :
    ids' = ids ∧
      mask' = (if Q.attend_to_mask_tokens then attendToMask Q ids mask else mask) ∧
      (Q.attend_to_mask_tokens = true → maskSum mask' = numel mask') := by
  simp only [QueryTokenizer.finishStage] at h
  set m5 := if Q.attend_to_mask_tokens then attendToMask Q ids mask else mask with hm5
  split at h
  · exact absurd h (by simp)
  · rename_i hcond
    simp only [Except.ok.injEq, Prod.mk.injEq] at h
    obtain ⟨h1, h2⟩ := h
    refine ⟨h1.symm, h2.symm, fun hatt => ?_⟩
    subst h2
    by_contra hne
    exact hcond ⟨hatt, hne⟩

theorem prefixBatch_length (batch : List String) :
    (prefixBatch batch).length = batch.length := by
  simp [prefixBatch]

theorem prefixBatch_ne_nil {batch : List String} (hb : batch ≠ []) :
    prefixBatch batch ≠ [] := by
  intro hc
  have := prefixBatch_length batch
  rw [hc] at this
  exact hb (List.length_eq_zero.mp this.symm)

theorem tensorize_ok_none {Q : QueryTokenizer} {batch : List String} {fls : Bool}
    {ids mask : List (List Nat)}
    (h : Q.tensorize batch none fls = .ok (ids, mask)) :
    Q.finishStage (Q.querySide (prefixBatch batch) fls).1
      (Q.querySide (prefixBatch batch) fls).2 = .ok (ids, mask) := by
  simp only [QueryTokenizer.tensorize] at h
  split at h
  · exact absurd h (by simp)
  · exact h

theorem tensorize_ok_some {Q : QueryTokenizer} {batch ctx : List String} {fls : Bool}
    {ids mask : List (List Nat)}
    (h : Q.tensorize batch (some ctx) fls = .ok (ids, mask)) :
    ctx.length = batch.length ∧
      Q.finishStage
        (contextStage Q ctx (Q.querySide (prefixBatch batch) fls).1
          (Q.querySide (prefixBatch batch) fls).2).1
        (contextStage Q ctx (Q.querySide (prefixBatch batch) fls).1
          (Q.querySide (prefixBatch batch) fls).2).2 = .ok (ids, mask) := by
  simp only [QueryTokenizer.tensorize] at h
  split at h
  · exact absurd h (by simp)
  · split at h
    · exact absurd h (by simp)
    · rename_i hctx
      refine ⟨?_, h⟩
      have hpl := prefixBatch_length batch
      simp only [ne_eq, not_not] at hctx
      exact hctx.trans hpl


theorem hfEncodeMax_fst_getElem? (t : RawTokenizer) (L : Nat) (batch : List String)
    {i : Nat} {s : String} (hs : batch[i]? = some s) :
    (hfEncodeMax t L batch).1[i]? = some (hfPadRow t L (hfTruncRow t L s)) := by
  simp [hfEncodeMax, List.getElem?_map, hs]

theorem hfEncodeMax_snd_getElem? (t : RawTokenizer) (L : Nat) (batch : List String)
    {i : Nat} {s : String} (hs : batch[i]? = some s) :
    (hfEncodeMax t L batch).2[i]? = some (hfMaskRow L (hfTruncRow t L s)) := by
  simp [hfEncodeMax, List.getElem?_map, hs]

theorem setMarker_getElem? (Q : QueryTokenizer) (ids : List (List Nat)) (i : Nat) :
    (setMarker Q ids)[i]? = ids[i]?.map (fun row => row.set 1 Q.Q_marker_token_id) := by
  simp [setMarker, List.getElem?_map]

theorem padToMask_getElem? (Q : QueryTokenizer) (ids : List (List Nat)) (i : Nat) :
    (padToMask Q ids)[i]? = ids[i]?.map (List.map fun x =>
      if x = Q.tok.pad_token_id then Q.tok.mask_token_id else x) := by
  simp [padToMask, List.getElem?_map]

theorem unpaddedSizes_getElem? (Q : QueryTokenizer) (ids : List (List Nat)) (i : Nat) :
    (unpaddedSizes Q ids)[i]? =
      ids[i]?.map (fun row => row.countP fun x => x != Q.tok.pad_token_id) := by
  simp [unpaddedSizes, List.getElem?_map]

theorem capRowIds_getElem?_lt (Q : QueryTokenizer) (a : Nat) (row : List Nat)
    {j : Nat} (hja : j < a) : (capRowIds Q a row)[j]? = row[j]? := by
  by_cases hj : j < row.length
  · rw [capRowIds, List.getElem?_append_left (by simp [List.length_take]; omega)]
    exact List.getElem?_take_of_lt hja
  · rw [List.getElem?_eq_none (by rw [capRowIds_length]; omega),
      List.getElem?_eq_none (by omega)]

theorem capRowIds_getElem?_beyond (Q : QueryTokenizer) (a : Nat) (row : List Nat)
    {j : Nat} (haj : a ≤ j) (hj : j < row.length) :
    (capRowIds Q a row)[j]? = some Q.tok.pad_token_id := by
  have hlen : (row.take a).length = a := by simp [List.length_take]; omega
  rw [capRowIds, List.getElem?_append_right (by omega), hlen,
    List.getElem?_replicate, if_pos (by omega)]

theorem capRowMask_getElem?_beyond (a : Nat) (row : List Nat)
    {j : Nat} (haj : a ≤ j) (hj : j < row.length) :
    (capRowMask a row)[j]? = some 0 := by
  have hlen : (row.take a).length = a := by simp [List.length_take]; omega
  rw [capRowMask, List.getElem?_append_right (by omega), hlen,
    List.getElem?_replicate, if_pos (by omega)]

theorem capPaddingStage_fst_getElem? (Q : QueryTokenizer) (sizes : List Nat)
    (ids mask : List (List Nat)) {i sz : Nat} {row : List Nat}
    (hsz : sizes[i]? = some sz) (hrow : ids[i]? = some row) :
    (capPaddingStage Q sizes ids mask).1[i]? =
      some ((capRowIds Q (sz + Q.cap_padding) row).take
        (min ((sizes.map (· + Q.cap_padding)).foldl max 0)
          (ids.head?.getD []).length)) := by
  simp [capPaddingStage, List.getElem?_map, List.getElem?_zipWith', hsz, hrow]

theorem capPaddingStage_snd_getElem? (Q : QueryTokenizer) (sizes : List Nat)
    (ids mask : List (List Nat)) {i sz : Nat} {row : List Nat}
    (hsz : sizes[i]? = some sz) (hrow : mask[i]? = some row) :
    (capPaddingStage Q sizes ids mask).2[i]? =
      some ((capRowMask (sz + Q.cap_padding) row).take
        (min ((sizes.map (· + Q.cap_padding)).foldl max 0)
          (ids.head?.getD []).length)) := by
  simp [capPaddingStage, List.getElem?_map, List.getElem?_zipWith', hsz, hrow]

theorem hfPadTrunc_length (t : RawTokenizer) (L : Nat) (s : String) :
    (hfPadRow t L (hfTruncRow t L s)).length = max L 2 := by
  rw [hfPadRow_length, hfTruncRow_length]; omega

theorem querySide_marker_getElem? (Q : QueryTokenizer) (batch : List String)
    (fls : Bool) (hQpad : Q.Q_marker_token_id ≠ Q.tok.pad_token_id)
    {i : Nat} {row : List Nat} (hrow : (Q.querySide batch fls).1[i]? = some row) :
    row[1]? = some Q.Q_marker_token_id ∧ 2 ≤ row.length := by
  set L := Q.targetLength batch fls with hLdef
  have hi : i < batch.length := by
    have h1 : i < (Q.querySide batch fls).1.length :=
      List.getElem?_eq_some_iff.mp hrow |>.1
    rwa [querySide_fst_length] at h1
  obtain ⟨s, hs⟩ : ∃ s, batch[i]? = some s :=
    ⟨batch[i], List.getElem?_eq_getElem hi⟩
  have henc := hfEncodeMax_fst_getElem? Q.tok L batch hs
  set erow := hfPadRow Q.tok L (hfTruncRow Q.tok L s) with herow
  have herlen : erow.length = max L 2 := hfPadTrunc_length Q.tok L s
  set mrow := erow.set 1 Q.Q_marker_token_id with hmrow
  have hm1 : mrow[1]? = some Q.Q_marker_token_id :=
    List.getElem?_set_self (by omega)
  have hmlen : mrow.length = max L 2 := by
    rw [hmrow, List.length_set]; exact herlen
  have hids1 : (setMarker Q (hfEncodeMax Q.tok L batch).1)[i]? = some mrow := by
    rw [setMarker_getElem?, henc]; rfl
  set sz := mrow.countP (fun x => x != Q.tok.pad_token_id) with hszdef
  have hsizes : (Q.querySizes batch fls)[i]? = some sz := by
    rw [QueryTokenizer.querySizes, unpaddedSizes_getElem?, ← hLdef, hids1]; rfl
  have hsz1 : 1 ≤ sz := by
    rw [hszdef]
    refine List.countP_pos_iff.mpr ⟨Q.Q_marker_token_id, List.getElem?_mem hm1, ?_⟩
    simp [hQpad]
  have hpre : ∃ prow, (Q.queryIdsPreCap batch fls)[i]? = some prow ∧
      prow[1]? = some Q.Q_marker_token_id ∧ prow.length = max L 2 := by
    rw [QueryTokenizer.queryIdsPreCap]
    split
    · refine ⟨mrow.map (fun x =>
        if x = Q.tok.pad_token_id then Q.tok.mask_token_id else x), ?_, ?_, ?_⟩
      · rw [padToMask_getElem?, ← hLdef, hids1]; rfl
      · rw [List.getElem?_map, hm1]
        simp [hQpad]
      · rw [List.length_map]; exact hmlen
    · exact ⟨mrow, by rw [← hLdef, hids1], hm1, hmlen⟩
  obtain ⟨prow, hprow, hp1, hplen⟩ := hpre
  rw [QueryTokenizer.querySide] at hrow
  by_cases hcap : 0 < Q.cap_padding
  · rw [if_pos hcap] at hrow
    rw [capPaddingStage_fst_getElem? Q _ _ _ hsizes hprow] at hrow
    have hiwidth : ((Q.queryIdsPreCap batch fls).head?.getD []).length = max L 2 := by
      have hne : Q.queryIdsPreCap batch fls ≠ [] := by
        intro hc
        have hl := queryIdsPreCap_length Q batch fls
        rw [hc] at hl
        simp at hl
        omega
      cases hq : Q.queryIdsPreCap batch fls with
      | nil => exact absurd hq hne
      | cons r rs =>
        simp only [List.head?_cons, Option.getD_some]
        exact width_queryIdsPreCap Q batch fls r (by rw [hq]; exact List.mem_cons_self r rs)
    rw [hiwidth] at hrow
    have hfold : sz + Q.cap_padding ≤
        ((Q.querySizes batch fls).map (· + Q.cap_padding)).foldl max 0 := by
      apply le_foldl_max_of_mem
      apply List.getElem?_mem (n := i)
      rw [List.getElem?_map, hsizes]
      rfl
    set M := min (((Q.querySizes batch fls).map (· + Q.cap_padding)).foldl max 0)
      (max L 2) with hMdef
    have hM2 : 2 ≤ M := by
      rw [hMdef]
      have : 2 ≤ sz + Q.cap_padding := by omega
      omega
    obtain rfl : row = (capRowIds Q (sz + Q.cap_padding) prow).take M :=
      (Option.some.inj hrow).symm
    constructor
    · rw [List.getElem?_take_of_lt (by omega),
        capRowIds_getElem?_lt Q _ _ (by omega), hp1]
    · rw [List.length_take, capRowIds_length, hplen]
      omega
  · rw [if_neg hcap] at hrow
    obtain rfl : row = prow := by
      rw [hprow] at hrow
      exact (Option.some.inj hrow).symm
    exact ⟨hp1, by omega⟩

theorem all_one_of_sum_eq_length {row : List Nat} (hb : ∀ x ∈ row, x ≤ 1)
    (hs : row.sum = row.length) : ∀ x ∈ row, x = 1 := by
  induction row with
  | nil => simp
  | cons a l ih =>
    simp only [List.sum_cons, List.length_cons] at hs
    have ha := hb a (List.mem_cons_self a l)
    have hl : ∀ x ∈ l, x ≤ 1 := fun x hx => hb x (List.mem_cons_of_mem a hx)
    have hsum_le : l.sum ≤ l.length := by
      have := List.sum_le_card_nsmul l 1 hl
      simpa using this
    have ha1 : a = 1 := by omega
    intro x hx
    rcases List.mem_cons.mp hx with rfl | hx'
    · exact ha1
    · exact ih hl (by omega) x hx'

theorem all_eq_of_sum_eq_mul {l : List Nat} {W : Nat} (h : ∀ x ∈ l, x ≤ W)
    (hs : l.sum = l.length * W) : ∀ x ∈ l, x = W := by
  induction l with
  | nil => simp
  | cons a l ih =>
    simp only [List.sum_cons, List.length_cons] at hs
    have ha := h a (List.mem_cons_self a l)
    have hl : ∀ x ∈ l, x ≤ W := fun x hx => h x (List.mem_cons_of_mem a hx)
    have hsum_le : l.sum ≤ l.length * W := by
      have := List.sum_le_card_nsmul l W hl
      simpa [Nat.mul_comm] using this
    have haW : a = W := by
      have : (l.length + 1) * W = l.length * W + W := by ring
      omega
    intro x hx
    rcases List.mem_cons.mp hx with rfl | hx'
    · exact haW
    · refine ih hl ?_ x hx'
      have : (l.length + 1) * W = l.length * W + W := by ring
      omega

theorem all_one_of_maskSum {mask : List (List Nat)} {W : Nat}
    (hw : ∀ row ∈ mask, row.length = W) (hb : ∀ row ∈ mask, ∀ x ∈ row, x ≤ 1)
    (hs : maskSum mask = numel mask) : ∀ row ∈ mask, ∀ x ∈ row, x = 1 := by
  cases mask with
  | nil => simp
  | cons r rs =>
    have hhead : ((r :: rs).head?.getD []).length = W := by
      simpa using hw r (List.mem_cons_self r rs)
    have hsums : ∀ x ∈ (r :: rs).map List.sum, x ≤ W := by
      intro x hx
      obtain ⟨row, hrow, rfl⟩ := List.mem_map.mp hx
      have := List.sum_le_card_nsmul row 1 (hb row hrow)
      have hlen := hw row hrow
      simp only [smul_eq_mul, mul_one] at this
      omega
    have hs' : ((r :: rs).map List.sum).sum = ((r :: rs).map List.sum).length * W := by
      rw [List.length_map]
      rw [maskSum, numel, hhead] at hs
      exact hs
    have hrowsum := all_eq_of_sum_eq_mul hsums hs'
    intro row hrow x hx
    have hseq : row.sum = W := hrowsum row.sum (List.mem_map.mpr ⟨row, hrow, rfl⟩)
    exact all_one_of_sum_eq_length (hb row hrow) (by rw [hseq, hw row hrow]) x hx

theorem tokenize_true_getElem? (Q : QueryTokenizer) {batch : List String}
    {i : Nat} {s : String} (hs : batch[i]? = some s) :
    (Q.tokenize batch true)[i]? =
      some ([Q.tok.cls_token, Q.Q_marker_token] ++ Q.tok.tokenize_str s
        ++ [Q.tok.sep_token]
        ++ List.replicate (Q.query_maxlen - ((Q.tok.tokenize_str s).length + 3))
            Q.tok.mask_token) := by
  simp [QueryTokenizer.tokenize, List.getElem?_map, hs]

theorem encode_true_getElem? (Q : QueryTokenizer) {batch : List String}
    {i : Nat} {s : String} (hs : batch[i]? = some s) :
    (Q.encode batch true)[i]? =
      some ([Q.tok.cls_token_id, Q.Q_marker_token_id] ++ Q.tok.rawIds s
        ++ [Q.tok.sep_token_id]
        ++ List.replicate (Q.query_maxlen - ((Q.tok.rawIds s).length + 3))
            Q.tok.mask_token_id) := by
  simp [QueryTokenizer.encode, List.getElem?_map, hs]

/-! ## The claims -/

/-- **C3**: with `add_special_tokens = true`, `tokenize` wraps each raw
subword sequence as `[begin, marker] + tokens + [separator] + [mask] *
pad_count` with `pad_count = query_maxlen - (len(tokens) + 3)` (truncated
subtraction, exactly like Python's negative repeat count), and `encode`
builds the same framing over integer token ids. -/
theorem tokenize_encode_special_framing (Q : QueryTokenizer)
    (batch : List String) (i : Nat) (s : String) (hs : batch[i]? = some s) :
    (Q.tokenize batch true)[i]? =
      some ([Q.tok.cls_token, Q.Q_marker_token] ++ Q.tok.tokenize_str s
        ++ [Q.tok.sep_token]
        ++ List.replicate (Q.query_maxlen - ((Q.tok.tokenize_str s).length + 3))
            Q.tok.mask_token) ∧
    (Q.encode batch true)[i]? =
      some ([Q.tok.cls_token_id, Q.Q_marker_token_id] ++ Q.tok.rawIds s
        ++ [Q.tok.sep_token_id]
        ++ List.replicate (Q.query_maxlen - ((Q.tok.rawIds s).length + 3))
            Q.tok.mask_token_id) :=
  ⟨tokenize_true_getElem? Q hs, encode_true_getElem? Q hs⟩

/-- Witness for C3: the toy tokenizer on `"a b"` with `query_maxlen = 6`. -/
theorem tokenize_encode_special_framing_witness :
    (demoQT.tokenize ["a b"] true)[0]? =
      some ["[CLS]", "[Q]", "a", "b", "[SEP]", "[MASK]"] ∧
    (demoQT.encode ["a b"] true)[0]? = some [101, 1, 97, 98, 102, 103] := by
  have h := tokenize_encode_special_framing demoQT ["a b"] 0 "a b" rfl
  exact h

/-- **C10**: when `len(tokens) + 3 > query_maxlen`, `tokenize` and `encode`
with `add_special_tokens = true` raise no error and append zero mask tokens
(Python's negative repeat count yields the empty list), returning the row
`[begin, marker] + tokens + [separator]` of length `len(tokens) + 3`, which
exceeds `query_maxlen`. -/
theorem tokenize_encode_overlong (Q : QueryTokenizer) (batch : List String)
    (i : Nat) (s : String) (hs : batch[i]? = some s)
    (htok : Q.query_maxlen < (Q.tok.tokenize_str s).length + 3)
    (hids : Q.query_maxlen < (Q.tok.rawIds s).length + 3) :
    (Q.tokenize batch true)[i]? =
      some ([Q.tok.cls_token, Q.Q_marker_token] ++ Q.tok.tokenize_str s
        ++ [Q.tok.sep_token]) ∧
    ([Q.tok.cls_token, Q.Q_marker_token] ++ Q.tok.tokenize_str s
        ++ [Q.tok.sep_token]).length = (Q.tok.tokenize_str s).length + 3 ∧
    (Q.encode batch true)[i]? =
      some ([Q.tok.cls_token_id, Q.Q_marker_token_id] ++ Q.tok.rawIds s
        ++ [Q.tok.sep_token_id]) ∧
    ([Q.tok.cls_token_id, Q.Q_marker_token_id] ++ Q.tok.rawIds s
        ++ [Q.tok.sep_token_id]).length = (Q.tok.rawIds s).length + 3 := by
  have h1 := tokenize_true_getElem? Q hs
  have h2 := encode_true_getElem? Q hs
  have e1 : Q.query_maxlen - ((Q.tok.tokenize_str s).length + 3) = 0 := by omega
  have e2 : Q.query_maxlen - ((Q.tok.rawIds s).length + 3) = 0 := by omega
  rw [e1, List.replicate_zero, List.append_nil] at h1
  rw [e2, List.replicate_zero, List.append_nil] at h2
  refine ⟨h1, by simp, h2, by simp⟩

/-- Witness for C10: nine raw tokens against `query_maxlen = 6`. -/
theorem tokenize_encode_overlong_witness :
    (demoQT.tokenize ["abcdefgh"] true)[0]? =
      some (["[CLS]", "[Q]"] ++ demoTok.tokenize_str "abcdefgh" ++ ["[SEP]"]) ∧
    (["[CLS]", "[Q]"] ++ demoTok.tokenize_str "abcdefgh" ++ ["[SEP]"]).length =
      (demoTok.tokenize_str "abcdefgh").length + 3 ∧
    (demoQT.encode ["abcdefgh"] true)[0]? =
      some ([101, 1] ++ demoTok.rawIds "abcdefgh" ++ [102]) ∧
    ([101, 1] ++ demoTok.rawIds "abcdefgh" ++ [102]).length =
      (demoTok.rawIds "abcdefgh").length + 3 := by
  have h := tokenize_encode_overlong demoQT ["abcdefgh"] 0 "abcdefgh" rfl
    (by decide) (by decide)
  exact h

/-- **C6**: `tensorize` with `full_length_search = true` and a batch whose
length is not 1 fails with `InvalidArgument` before producing any output. -/
theorem tensorize_full_length_search_requires_singleton
    (Q : QueryTokenizer) (batch : List String) (context : Option (List String))
    (hlen : batch.length ≠ 1) :
    Q.tensorize batch context true = .error .invalidArgument := by
  simp only [QueryTokenizer.tensorize]
  rw [if_pos ⟨by simp, by rw [prefixBatch_length]; exact hlen⟩]

/-- Witness for C6: a batch of size 2 raises. -/
theorem tensorize_full_length_search_requires_singleton_witness :
    demoQT.tensorize ["a", "b"] none true = .error .invalidArgument :=
  tensorize_full_length_search_requires_singleton demoQT ["a", "b"] none (by decide)

/-- **C8**: if the pad policy is mask-token, then after the pad-replacement
step (step 7, `queryIdsPreCap`) no token id equals the pad-token id, while
this step leaves the attention mask untouched (with no later cap stage the
pipeline's mask is exactly the raw tokenizer mask). -/
theorem pad_policy_mask_no_pad_left (Q : QueryTokenizer) (batch : List String)
    (fls : Bool) (hpol : Q.query_pad_tok_mask = true)
    (hmp : Q.tok.mask_token_id ≠ Q.tok.pad_token_id) :
    (∀ row ∈ Q.queryIdsPreCap batch fls, Q.tok.pad_token_id ∉ row) ∧
    (Q.cap_padding = 0 →
      (Q.querySide batch fls).2 =
        (hfEncodeMax Q.tok (Q.targetLength batch fls) batch).2) := by
  constructor
  · intro row hr hpad
    rw [QueryTokenizer.queryIdsPreCap] at hr
    rw [if_pos hpol] at hr
    simp only [padToMask, List.mem_map] at hr
    obtain ⟨r, _, rfl⟩ := hr
    obtain ⟨x, _, hfx⟩ := List.mem_map.mp hpad
    by_cases hx : x = Q.tok.pad_token_id
    · rw [if_pos hx] at hfx
      exact hmp hfx
    · rw [if_neg hx] at hfx
      exact hx hfx
  · intro hcap
    rw [QueryTokenizer.querySide, if_neg (by omega)]

/-- Witness for C8: with the toy tokenizer, mask-token padding leaves no
pad id in the pre-cap ids, and the pipeline's mask is the raw one. -/
theorem pad_policy_mask_no_pad_left_witness :
    (∀ row ∈ demoQTpadmask.queryIdsPreCap (prefixBatch ["a"]) false,
      demoQTpadmask.tok.pad_token_id ∉ row) ∧
    (demoQTpadmask.cap_padding = 0 →
      (demoQTpadmask.querySide (prefixBatch ["a"]) false).2 =
        (hfEncodeMax demoQTpadmask.tok
          (demoQTpadmask.targetLength (prefixBatch ["a"]) false)
          (prefixBatch ["a"])).2) :=
  pad_policy_mask_no_pad_left demoQTpadmask (prefixBatch ["a"]) false rfl (by decide)

/-- **C9**: `max_len` is the pure clamp `min(500, max(query_maxlen, length))`,
and under `full_length_search` `tensorize` uses exactly this clamp of the
longest untruncated tokenized length (of the prefixed input) as the
padding/truncation target: with the cap disabled every returned row has that
width. -/
theorem max_len_clamp_and_target (Q : QueryTokenizer) :
    (∀ n, Q.max_len n = min 500 (max Q.query_maxlen n)) ∧
    (∀ s ids mask, 2 ≤ Q.query_maxlen → Q.cap_padding = 0 →
      Q.tensorize [s] none true = .ok (ids, mask) →
      ∀ row ∈ ids, row.length = Q.max_len (Q.tok.rawIds (". " ++ s)).length) := by
  refine ⟨fun n => rfl, fun s ids mask h2 hcap hok => ?_⟩
  obtain ⟨hids, _, _⟩ := finishStage_ok (tensorize_ok_none hok)
  subst hids
  intro row hrow
  have hw := width_querySide_fst Q (prefixBatch [s]) true (by simp [prefixBatch])
    row hrow
  rw [hw]
  have htarget : Q.targetLength (prefixBatch [s]) true =
      Q.max_len (Q.tok.rawIds (". " ++ s)).length := by
    simp [QueryTokenizer.targetLength, prefixBatch]
  rw [QueryTokenizer.querySideWidth]
  rw [if_neg (by omega)]
  rw [htarget]
  have : 2 ≤ Q.max_len (Q.tok.rawIds (". " ++ s)).length := by
    rw [QueryTokenizer.max_len]; omega
  omega

/-- Witness for C9: a nine-token query under `full_length_search` comes back
at width `max_len(9) = 9`, above the configured `query_maxlen = 6`. -/
theorem max_len_clamp_and_target_witness :
    ∀ row ∈ [[101, 1, 97, 98, 99, 100, 101, 102, 102]],
      row.length = demoQT.max_len (demoQT.tok.rawIds (". " ++ "abcdefgh")).length :=
  (max_len_clamp_and_target demoQT).2 "abcdefgh"
    [[101, 1, 97, 98, 99, 100, 101, 102, 102]] [[1, 1, 1, 1, 1, 1, 1, 1, 1]]
    (by decide) rfl rfl

/-- **C1** (amended): for every non-empty batch without context, a
successful `tensorize` returns `ids` and `mask` of identical shape
`(batch_size, L)` for a single common `L`; `L ≥ query_maxlen` holds whenever
`cap_padding = 0` and `full_length_search = false`, but (contrary to the
claim as stated) the batch-wide trim of `cap_padding > 0` can make
`L < query_maxlen`. -/
theorem tensorize_shape (Q : QueryTokenizer) (batch : List String) (fls : Bool)
    (ids mask : List (List Nat)) (hb : batch ≠ [])
    (hok : Q.tensorize batch none fls = .ok (ids, mask)) :
    ids.length = batch.length ∧ mask.length = batch.length ∧
    ∃ L, (∀ row ∈ ids, row.length = L) ∧ (∀ row ∈ mask, row.length = L) ∧
      (Q.cap_padding = 0 → fls = false → Q.query_maxlen ≤ L) := by
  obtain ⟨hids, hmask, _⟩ := finishStage_ok (tensorize_ok_none hok)
  have hpB := prefixBatch_ne_nil hb
  have hw1 := width_querySide_fst Q (prefixBatch batch) fls hpB
  have hw2 := width_querySide_snd Q (prefixBatch batch) fls hpB
  have hl1 := querySide_fst_length Q (prefixBatch batch) fls
  have hl2 := querySide_snd_length Q (prefixBatch batch) fls
  have hplen := prefixBatch_length batch
  subst hids
  have hmaskw : (∀ row ∈ mask, row.length = Q.querySideWidth (prefixBatch batch) fls) ∧
      mask.length = batch.length := by
    by_cases hatt : Q.attend_to_mask_tokens = true
    · simp only [hatt, if_true] at hmask
      subst hmask
      refine ⟨width_attendToMask Q _ _ _ hw1 hw2, ?_⟩
      rw [attendToMask_length, hl1, hl2, hplen]
      simp
    · simp only [hatt] at hmask
      rw [if_neg (by simp [hatt])] at hmask
      subst hmask
      exact ⟨hw2, by rw [hl2, hplen]⟩
  refine ⟨by rw [hl1, hplen], hmaskw.2,
    Q.querySideWidth (prefixBatch batch) fls, hw1, hmaskw.1, ?_⟩
  intro hcap hfls
  rw [QueryTokenizer.querySideWidth, if_neg (by omega), QueryTokenizer.targetLength,
    hfls]
  simp only [Bool.false_eq_true, if_false]
  exact le_max_left _ _

/-- Witness for C1 (amended): the default configuration on a singleton
batch. -/
theorem tensorize_shape_witness :
    ([[101, 1, 97, 102, 0, 0]] : List (List Nat)).length =
      (["a"] : List String).length ∧
    ([[1, 1, 1, 1, 0, 0]] : List (List Nat)).length =
      (["a"] : List String).length ∧
    ∃ L, (∀ row ∈ ([[101, 1, 97, 102, 0, 0]] : List (List Nat)), row.length = L) ∧
      (∀ row ∈ ([[1, 1, 1, 1, 0, 0]] : List (List Nat)), row.length = L) ∧
      (demoQT.cap_padding = 0 → false = false → demoQT.query_maxlen ≤ L) :=
  tensorize_shape demoQT ["a"] false [[101, 1, 97, 102, 0, 0]] [[1, 1, 1, 1, 0, 0]]
    (by simp) rfl

/-- Counterexample to C1 as stated: with `cap_padding = 1`, the short query
`"a"` makes the batch-wide trim slice both tensors to width 5, strictly
below `query_maxlen = 6`. -/
theorem tensorize_cap_width_below_query_maxlen :
    demoQTcap.tensorize ["a"] none false =
      .ok ([[101, 1, 97, 102, 0]], [[1, 1, 1, 1, 0]]) ∧
    ¬ demoQTcap.query_maxlen ≤ (([[101, 1, 97, 102, 0]] : List (List Nat)).headD []).length :=
  ⟨rfl, by decide⟩

/-- **C5**: column 1 of every returned ids row equals the query-marker token
id (the marker and pad ids being distinct vocabulary entries): the overwrite
survives the pad-policy replacement, the `cap_padding` trim, and context
concatenation. -/
theorem tensorize_marker_column (Q : QueryTokenizer) (batch : List String)
    (context : Option (List String)) (fls : Bool) (ids mask : List (List Nat))
    (hQpad : Q.Q_marker_token_id ≠ Q.tok.pad_token_id)
    (hok : Q.tensorize batch context fls = .ok (ids, mask)) :
    ∀ row ∈ ids, row[1]? = some Q.Q_marker_token_id := by
  cases context with
  | none =>
    obtain ⟨hids, _, _⟩ := finishStage_ok (tensorize_ok_none hok)
    subst hids
    intro row hrow
    obtain ⟨i, hi⟩ := List.mem_iff_getElem?.mp hrow
    exact (querySide_marker_getElem? Q _ fls hQpad hi).1
  | some ctx =>
    obtain ⟨_, hfin⟩ := tensorize_ok_some hok
    obtain ⟨hids, _, _⟩ := finishStage_ok hfin
    subst hids
    intro row hrow
    obtain ⟨i, hi⟩ := List.mem_iff_getElem?.mp hrow
    simp only [contextStage] at hi
    obtain ⟨qrow, ext, hq, _, hre⟩ := List.getElem?_zipWith_eq_some.mp hi
    obtain ⟨hm, hlen⟩ := querySide_marker_getElem? Q _ fls hQpad hq
    subst hre
    rw [List.getElem?_append_left (by omega)]
    exact hm

/-- Witness for C5: the default configuration on a singleton batch writes
the marker id 1 into column 1. -/
theorem tensorize_marker_column_witness :
    ([101, 1, 97, 102, 0, 0] : List Nat)[1]? = some demoQT.Q_marker_token_id :=
  tensorize_marker_column demoQT ["a"] none false
    [[101, 1, 97, 102, 0, 0]] [[1, 1, 1, 1, 0, 0]] (by decide) rfl
    [101, 1, 97, 102, 0, 0] (by simp)

/-- **C4**: under `attend_to_mask_tokens`, a successful `tensorize` never
returns a mask that is not all-ones: the returned mask is fully dense
(`mask.sum() == batch_size * L`); otherwise the call fails with
`InvariantViolation`. -/
theorem tensorize_attend_all_ones (Q : QueryTokenizer) (batch : List String)
    (context : Option (List String)) (fls : Bool) (ids mask : List (List Nat))
    (hatt : Q.attend_to_mask_tokens = true) (hb : batch ≠ [])
    (hok : Q.tensorize batch context fls = .ok (ids, mask)) :
    (∀ row ∈ mask, ∀ x ∈ row, x = 1) ∧ maskSum mask = numel mask := by
  have hpB := prefixBatch_ne_nil hb
  cases context with
  | none =>
    obtain ⟨hids, hmask, hsum⟩ := finishStage_ok (tensorize_ok_none hok)
    have hsum' := hsum hatt
    simp only [hatt, if_true] at hmask
    subst hmask
    refine ⟨all_one_of_maskSum
      (width_attendToMask Q _ _ _ (width_querySide_fst Q _ fls hpB)
        (width_querySide_snd Q _ fls hpB))
      (binary_attendToMask Q _ _ (binary_querySide_snd Q _ fls)) hsum', hsum'⟩
  | some ctx =>
    obtain ⟨_, hfin⟩ := tensorize_ok_some hok
    obtain ⟨hids, hmask, hsum⟩ := finishStage_ok hfin
    have hsum' := hsum hatt
    simp only [hatt, if_true] at hmask
    subst hmask
    refine ⟨all_one_of_maskSum
      (width_attendToMask Q _ _ _
        (width_contextStage_fst Q ctx _ _ _ (width_querySide_fst Q _ fls hpB))
        (width_contextStage_snd Q ctx _ _ _ (width_querySide_snd Q _ fls hpB)))
      (binary_attendToMask Q _ _
        (binary_contextStage_snd Q ctx _ _ (binary_querySide_snd Q _ fls))) hsum',
      hsum'⟩

/-- Witness for C4: mask-token padding plus forced attention yields the
all-ones mask. -/
theorem tensorize_attend_all_ones_witness :
    (∀ row ∈ ([[1, 1, 1, 1, 1, 1]] : List (List Nat)), ∀ x ∈ row, x = 1) ∧
    maskSum [[1, 1, 1, 1, 1, 1]] = numel [[1, 1, 1, 1, 1, 1]] :=
  tensorize_attend_all_ones demoQTattend ["a"] none false
    [[101, 1, 97, 102, 103, 103]] [[1, 1, 1, 1, 1, 1]] rfl (by simp) rfl

theorem queryIdsPreCap_head_width (Q : QueryTokenizer) (batch : List String)
    (fls : Bool) (hb : batch ≠ []) :
    ((Q.queryIdsPreCap batch fls).head?.getD []).length =
      max (Q.targetLength batch fls) 2 := by
  have hne : Q.queryIdsPreCap batch fls ≠ [] := by
    intro hc
    have hl := queryIdsPreCap_length Q batch fls
    rw [hc] at hl
    simp at hl
    exact hb (List.length_eq_zero.mp hl.symm)
  cases hq : Q.queryIdsPreCap batch fls with
  | nil => exact absurd hq hne
  | cons r rs =>
    simp only [List.head?_cons, Option.getD_some]
    exact width_queryIdsPreCap Q batch fls r (by rw [hq]; exact List.mem_cons_self r rs)

/-- **C7**: a context whose length differs from the batch length fails with
`InvalidArgument`; with a matching context, `tensorize` drops position 0 of
each tokenized context row and concatenates the rest to the right of the
query tensors, so every returned row's width is the query-side width plus
the tokenized-context width minus one. -/
theorem tensorize_context_splice (Q : QueryTokenizer) (batch ctx : List String)
    (fls : Bool) :
    (ctx.length ≠ batch.length →
      Q.tensorize batch (some ctx) fls = .error .invalidArgument) ∧
    (∀ ids mask, batch ≠ [] →
      Q.tensorize batch (some ctx) fls = .ok (ids, mask) →
      ids = (contextStage Q ctx (Q.querySide (prefixBatch batch) fls).1
        (Q.querySide (prefixBatch batch) fls).2).1 ∧
      (∀ row ∈ ids, row.length = Q.querySideWidth (prefixBatch batch) fls
        + (longestWidth Q.tok Q.background_maxlen ctx - 1)) ∧
      (∀ row ∈ mask, row.length = Q.querySideWidth (prefixBatch batch) fls
        + (longestWidth Q.tok Q.background_maxlen ctx - 1))) := by
  constructor
  · intro hne
    simp only [QueryTokenizer.tensorize]
    split
    · rfl
    · rw [if_pos (by rw [prefixBatch_length]; exact hne)]
  · intro ids mask hb hok
    obtain ⟨hctxlen, hfin⟩ := tensorize_ok_some hok
    obtain ⟨hids, hmask, _⟩ := finishStage_ok hfin
    have hpB := prefixBatch_ne_nil hb
    subst hids
    refine ⟨rfl,
      width_contextStage_fst Q ctx _ _ _ (width_querySide_fst Q _ fls hpB), ?_⟩
    have hcs2 := width_contextStage_snd Q ctx
      (Q.querySide (prefixBatch batch) fls).1 (Q.querySide (prefixBatch batch) fls).2
      _ (width_querySide_snd Q _ fls hpB)
    by_cases hatt : Q.attend_to_mask_tokens = true
    · simp only [hatt, if_true] at hmask
      subst hmask
      exact width_attendToMask Q _ _ _
        (width_contextStage_fst Q ctx _ _ _ (width_querySide_fst Q _ fls hpB)) hcs2
    · simp only [hatt] at hmask
      rw [if_neg (by simp [hatt])] at hmask
      subst hmask
      exact hcs2

/-- Witness for C7: a mismatched context of length 2 raises, and the matched
context `["xy z"]` (tokenized width 5) extends the width-6 query side to
`6 + 5 - 1 = 10`. -/
theorem tensorize_context_splice_witness :
    demoQT.tensorize ["ab"] (some ["x", "y"]) false = .error .invalidArgument ∧
    (∀ row ∈ ([[101, 1, 97, 98, 102, 0, 120, 121, 122, 102]] : List (List Nat)),
      row.length = demoQT.querySideWidth (prefixBatch ["ab"]) false
        + (longestWidth demoQT.tok demoQT.background_maxlen ["xy z"] - 1)) :=
  ⟨(tensorize_context_splice demoQT ["ab"] ["x", "y"] false).1 (by decide),
   ((tensorize_context_splice demoQT ["ab"] ["xy z"] false).2
      [[101, 1, 97, 98, 102, 0, 120, 121, 122, 102]]
      [[1, 1, 1, 1, 1, 0, 1, 1, 1, 1]] (by simp) rfl).2.1⟩

/-- **C2**: with `cap_padding = k > 0` (and the mask returned as computed,
i.e. no forced attention), a successful `tensorize` performs the two-phase
truncation: both tensors come back at the single batch-wide width
`min(pre-cap width, max_i (unpadded_sizes[i] + k))`, and within that width
every position of row `i` at index `unpadded_sizes[i] + k` or beyond holds
the pad-token id with attention 0, where `unpadded_sizes` is recorded after
the marker overwrite and before the pad-policy replacement. -/
theorem tensorize_cap_padding_two_phase (Q : QueryTokenizer) (batch : List String)
    (fls : Bool) (ids mask : List (List Nat))
    (hcap : 0 < Q.cap_padding) (hatt : Q.attend_to_mask_tokens = false)
    (hb : batch ≠ [])
    (hok : Q.tensorize batch none fls = .ok (ids, mask)) :
    (∀ row ∈ ids, row.length =
      min (((Q.querySizes (prefixBatch batch) fls).map (· + Q.cap_padding)).foldl max 0)
        (max (Q.targetLength (prefixBatch batch) fls) 2)) ∧
    (∀ row ∈ mask, row.length =
      min (((Q.querySizes (prefixBatch batch) fls).map (· + Q.cap_padding)).foldl max 0)
        (max (Q.targetLength (prefixBatch batch) fls) 2)) ∧
    (∀ (i j sz : Nat), (Q.querySizes (prefixBatch batch) fls)[i]? = some sz →
      sz + Q.cap_padding ≤ j →
      j < min (((Q.querySizes (prefixBatch batch) fls).map (· + Q.cap_padding)).foldl max 0)
        (max (Q.targetLength (prefixBatch batch) fls) 2) →
      (∃ row, ids[i]? = some row ∧ row[j]? = some Q.tok.pad_token_id) ∧
      (∃ row, mask[i]? = some row ∧ row[j]? = some 0)) := by
  obtain ⟨hids, hmask, _⟩ := finishStage_ok (tensorize_ok_none hok)
  rw [if_neg (by simp [hatt])] at hmask
  have hpB := prefixBatch_ne_nil hb
  have hWid : Q.querySideWidth (prefixBatch batch) fls =
      min (((Q.querySizes (prefixBatch batch) fls).map (· + Q.cap_padding)).foldl max 0)
        (max (Q.targetLength (prefixBatch batch) fls) 2) := by
    rw [QueryTokenizer.querySideWidth, if_pos hcap]
  subst hids
  subst hmask
  refine ⟨fun row hr => by
      rw [← hWid]; exact width_querySide_fst Q _ fls hpB row hr,
    fun row hr => by
      rw [← hWid]; exact width_querySide_snd Q _ fls hpB row hr, ?_⟩
  intro i j sz hsz hj1 hj2
  have hilen : i < batch.length := by
    have := List.getElem?_eq_some_iff.mp hsz |>.1
    rwa [querySizes_length, prefixBatch_length] at this
  obtain ⟨prow, hprow⟩ : ∃ r, (Q.queryIdsPreCap (prefixBatch batch) fls)[i]? = some r := by
    have : i < (Q.queryIdsPreCap (prefixBatch batch) fls).length := by
      rw [queryIdsPreCap_length, prefixBatch_length]; exact hilen
    exact ⟨_, List.getElem?_eq_getElem this⟩
  obtain ⟨mrow, hmrow⟩ : ∃ r,
      (hfEncodeMax Q.tok (Q.targetLength (prefixBatch batch) fls) (prefixBatch batch)).2[i]?
        = some r := by
    have : i < (hfEncodeMax Q.tok (Q.targetLength (prefixBatch batch) fls)
        (prefixBatch batch)).2.length := by
      rw [hfEncodeMax_snd_length, prefixBatch_length]; exact hilen
    exact ⟨_, List.getElem?_eq_getElem this⟩
  have hplen : prow.length = max (Q.targetLength (prefixBatch batch) fls) 2 :=
    width_queryIdsPreCap Q _ fls prow (List.getElem?_mem hprow)
  have hmlen : mrow.length = max (Q.targetLength (prefixBatch batch) fls) 2 :=
    width_hfEncodeMax_snd Q.tok _ _ mrow (List.getElem?_mem hmrow)
  have hhead := queryIdsPreCap_head_width Q (prefixBatch batch) fls hpB
  have hqs : Q.querySide (prefixBatch batch) fls =
      capPaddingStage Q (Q.querySizes (prefixBatch batch) fls)
        (Q.queryIdsPreCap (prefixBatch batch) fls)
        (hfEncodeMax Q.tok (Q.targetLength (prefixBatch batch) fls) (prefixBatch batch)).2 := by
    rw [QueryTokenizer.querySide, if_pos hcap]
  have hq1 : (Q.querySide (prefixBatch batch) fls).1[i]? =
      some ((capRowIds Q (sz + Q.cap_padding) prow).take
        (min (((Q.querySizes (prefixBatch batch) fls).map (· + Q.cap_padding)).foldl max 0)
          ((Q.queryIdsPreCap (prefixBatch batch) fls).head?.getD []).length)) := by
    rw [hqs]
    exact capPaddingStage_fst_getElem? Q _ _ _ hsz hprow
  have hq2 : (Q.querySide (prefixBatch batch) fls).2[i]? =
      some ((capRowMask (sz + Q.cap_padding) mrow).take
        (min (((Q.querySizes (prefixBatch batch) fls).map (· + Q.cap_padding)).foldl max 0)
          ((Q.queryIdsPreCap (prefixBatch batch) fls).head?.getD []).length)) := by
    rw [hqs]
    exact capPaddingStage_snd_getElem? Q _ _ _ hsz hmrow
  rw [hhead] at hq1 hq2
  constructor
  · refine ⟨_, hq1, ?_⟩
    rw [List.getElem?_take_of_lt hj2]
    exact capRowIds_getElem?_beyond Q _ _ hj1 (by omega)
  · refine ⟨_, hq2, ?_⟩
    rw [List.getElem?_take_of_lt hj2]
    exact capRowMask_getElem?_beyond _ _ hj1 (by omega)

/-- Witness for C2: `cap_padding = 1` on the batch `["a", "abc"]`
(`unpadded_sizes = [4, 6]`): the common width is `min(6, max(5, 7)) = 6`,
and in row 0 the positions at index `4 + 1 = 5` and beyond hold the pad id
with attention 0. -/
theorem tensorize_cap_padding_two_phase_witness :
    (∀ row ∈ ([[101, 1, 97, 102, 0, 0], [101, 1, 97, 98, 99, 102]] : List (List Nat)),
      row.length =
      min (((demoQTcap.querySizes (prefixBatch ["a", "abc"]) false).map
          (· + demoQTcap.cap_padding)).foldl max 0)
        (max (demoQTcap.targetLength (prefixBatch ["a", "abc"]) false) 2)) ∧
    (∀ row ∈ ([[1, 1, 1, 1, 0, 0], [1, 1, 1, 1, 1, 1]] : List (List Nat)),
      row.length =
      min (((demoQTcap.querySizes (prefixBatch ["a", "abc"]) false).map
          (· + demoQTcap.cap_padding)).foldl max 0)
        (max (demoQTcap.targetLength (prefixBatch ["a", "abc"]) false) 2)) ∧
    (∀ (i j sz : Nat),
      (demoQTcap.querySizes (prefixBatch ["a", "abc"]) false)[i]? = some sz →
      sz + demoQTcap.cap_padding ≤ j →
      j < min (((demoQTcap.querySizes (prefixBatch ["a", "abc"]) false).map
          (· + demoQTcap.cap_padding)).foldl max 0)
        (max (demoQTcap.targetLength (prefixBatch ["a", "abc"]) false) 2) →
      (∃ row, ([[101, 1, 97, 102, 0, 0], [101, 1, 97, 98, 99, 102]] :
          List (List Nat))[i]? = some row ∧
        row[j]? = some demoQTcap.tok.pad_token_id) ∧
      (∃ row, ([[1, 1, 1, 1, 0, 0], [1, 1, 1, 1, 1, 1]] :
          List (List Nat))[i]? = some row ∧ row[j]? = some 0)) :=
  tensorize_cap_padding_two_phase demoQTcap ["a", "abc"] false
    [[101, 1, 97, 102, 0, 0], [101, 1, 97, 98, 99, 102]]
    [[1, 1, 1, 1, 0, 0], [1, 1, 1, 1, 1, 1]] (by decide) rfl (by simp) rfl

end ColBERT
